import Mathlib

/-! Verification development for the api-to-mcp documentation scraper core
(`src/apitomcp/scraper.py`), shallowly embedded in Lean.

Page text is modelled as `List Char` internally (Python string indexing is by
character).  External collaborators are modelled as explicit inputs: an
abstract `World` maps a URL to a fetch outcome (`none` = `httpx.HTTPError`,
i.e. timeout, transport error or non-success status), and a fetched page
provides its anchors (each carrying the `urljoin`-resolved absolute URL) and
its converted markdown (the MarkItDown output, or the BeautifulSoup text
fallback; an empty string models falsy markdown).  `urllib.parse.urlparse`
is modelled by `urlparse3` for the URL shapes the crawler handles
(absolute `scheme://netloc/path?query#fragment` URLs, network-relative
`//netloc/...` URLs, and relative references). -/

/-! ## Python string primitives -/

/-- Python `\s` on the ASCII range (the inputs the scraper handles). -/
def isWs (c : Char) : Bool :=
  c == ' ' || c == '\t' || c == '\n' || c == '\r' || c == '\x0b' || c == '\x0c'

/-- Python regex `\w` on the ASCII range. -/
def wordChar (c : Char) : Bool := c.isAlphanum || c == '_'

/-- Python `str.strip()`. -/
def pyStrip (l : List Char) : List Char :=
  ((l.dropWhile isWs).reverse.dropWhile isWs).reverse

/-- Python `str.strip(cut)`. -/
def pyStripChars (cut : List Char) (l : List Char) : List Char :=
  ((l.dropWhile (cut.contains ·)).reverse.dropWhile (cut.contains ·)).reverse

/-- Python `str.rstrip(cut)`. -/
def pyRstrip (cut : List Char) (l : List Char) : List Char :=
  (l.reverse.dropWhile (cut.contains ·)).reverse

/-- Python `str.lower()` (ASCII). -/
def pyLower (s : String) : String := String.mk (s.data.map Char.toLower)

/-- Python `str.split("\n")` (keeps empty pieces; `[""]` on the empty string). -/
def splitNl : List Char → List (List Char)
  | [] => [[]]
  | c :: rest =>
    let r := splitNl rest
    if c == '\n' then [] :: r
    else match r with
      | [] => [[c]]
      | h :: t => (c :: h) :: t

/-- Consume a literal case-insensitively (pattern given in lower case);
returns the remaining characters. -/
def ciStrip : List Char → List Char → Option (List Char)
  | [], cs => some cs
  | _ :: _, [] => none
  | p :: ps, c :: cs => if c.toLower == p then ciStrip ps cs else none

/-- Consume a literal case-sensitively; returns the remaining characters. -/
def litStrip : List Char → List Char → Option (List Char)
  | [], cs => some cs
  | _ :: _, [] => none
  | p :: ps, c :: cs => if c == p then litStrip ps cs else none

/-- Index of the first occurrence of `pat` (Python `str.find`,
restricted to a non-empty pattern). -/
def findPat (pat : List Char) : List Char → Option Nat
  | [] => if pat.isEmpty then some 0 else none
  | c :: rest =>
    if pat.isPrefixOf (c :: rest) then some 0
    else (findPat pat (rest)).map (· + 1)

/-- Substring scan: is `pat` a contiguous infix of the list? -/
def infixOfCL (pat : List Char) : List Char → Bool
  | [] => pat.isEmpty
  | c :: rest => pat.isPrefixOf (c :: rest) || infixOfCL pat rest

/-- Python `needle in hay` on strings. -/
def substr_in (needle hay : String) : Bool := infixOfCL needle.data hay.data

/-! ## Modelled `urllib.parse.urlparse` (scheme, netloc, path) -/

def takeNetloc (l : List Char) : List Char :=
  l.takeWhile (fun c => !(c == '/' || c == '?' || c == '#'))

def takePath (l : List Char) : List Char :=
  l.takeWhile (fun c => !(c == '?' || c == '#'))

/-- Modelled `urlparse`: returns `(scheme, netloc, path)`; the query and
fragment are discarded (the scraper never reads them). -/
def urlparse3 (cs : List Char) : List Char × List Char × List Char :=
  match findPat "://".data cs with
  | some i =>
    let sch := cs.take i
    let rest := cs.drop (i + 3)
    let nl := takeNetloc rest
    (sch, nl, takePath (rest.drop nl.length))
  | none =>
    if "//".data.isPrefixOf cs then
      let rest := cs.drop 2
      let nl := takeNetloc rest
      ([], nl, takePath (rest.drop nl.length))
    else ([], [], takePath cs)

/-- `f"{parsed.scheme}://{parsed.netloc}{parsed.path}"` — the normalized
(clean) URL form that `extract_navigation_links` enqueues. -/
def clean_url (s : String) : String :=
  let t := urlparse3 s.data
  String.mk t.1 ++ "://" ++ String.mk t.2.1 ++ String.mk t.2.2

def netloc_of (s : String) : String := String.mk (urlparse3 s.data).2.1

/-- Normalization in the sense of the specification: scheme+host+path with
query and fragment stripped (the same shape `clean_url` produces). -/
def normalize_url (s : String) : String := clean_url s

/-- `f"{parsed_start.scheme}://{parsed_start.netloc}"`. -/
def seed_domain (url : String) : String :=
  let t := urlparse3 url.data
  String.mk t.1 ++ "://" ++ String.mk t.2.1

/-- `parsed_start.path.rsplit("/", 1)[0] if "/" in parsed_start.path else ""`. -/
def base_path_of (url : String) : String :=
  let p := (urlparse3 url.data).2.2
  if p.contains '/' then
    String.mk ((p.reverse.dropWhile (fun c => !(c == '/'))).drop 1).reverse
  else ""

/-! ## Keyword vocabularies (verbatim from the source) -/

def NAV_KEYWORDS : List String :=
  ["api", "reference", "endpoint", "resource", "method", "operation",
   "rest", "documentation", "docs", "guide"]

def ENDPOINT_KEYWORDS : List String :=
  ["get-", "create-", "update-", "delete-", "list-", "search-", "save-",
   "remove-", "check-", "add-", "set-", "start-", "stop-", "pause-",
   "play-", "skip-", "seek-", "transfer-", "follow-", "unfollow-"]

def SKIP_KEYWORDS : List String :=
  ["changelog", "blog", "pricing", "support", "contact", "login", "signup",
   "register", "download", "community", "forum", "faq", "terms", "privacy",
   "legal", "status", "careers"]

def AUTH_URL_KEYWORDS : List String :=
  ["auth", "authentication", "authorization", "oauth", "token",
   "credentials", "api-key", "apikey", "access-token", "getting-started"]

/-! ## Link classifier -/

/-- The first loop of `get_link_priority`: some skip keyword occurs in the
lowered href or the lowered anchor text. -/
def has_skip_keyword (href text : String) : Bool :=
  SKIP_KEYWORDS.any (fun kw => substr_in kw (pyLower href) || substr_in kw (pyLower text))

/-- `get_link_priority(href, link_text)` (the enclosing crawl's `base_path`
is passed explicitly; lower value = higher priority). -/
def get_link_priority (base_path href text : String) : Nat :=
  if has_skip_keyword href text then 999
  else if ENDPOINT_KEYWORDS.any
      (fun kw => substr_in kw (pyLower href) || substr_in kw (pyLower text)) then 1
  else if base_path != "" && base_path.data.isPrefixOf href.data then 5
  else
    match NAV_KEYWORDS.findIdx?
        (fun kw => substr_in kw (pyLower href) || substr_in kw (pyLower text)) with
    | some i => 10 + i
    | none => 50

/-- `is_valid_doc_link(href, base_domain)`. -/
def is_valid_doc_link (href base_domain : String) : Bool :=
  if href == "" then false
  else if ["#", "javascript:", "mailto:", "tel:", "data:"].any
      (fun p => p.data.isPrefixOf href.data) then false
  else if [".pdf", ".zip", ".tar", ".gz"].any
      (fun e => e.data.isSuffixOf (pyLower href).data) then false
  else
    let nl := netloc_of href
    nl == "" || nl == netloc_of base_domain

/-- `is_auth_related_url(page_url)`. -/
def is_auth_related_url (page_url : String) : Bool :=
  AUTH_URL_KEYWORDS.any (fun kw => substr_in kw (pyLower page_url))

/-! ## Data model -/

structure Operation where
  method : String
  path : String
  summary : String := ""
  description : String := ""
  examples : List String := []
  parameters_text : String := ""
  source_url : String := ""
deriving DecidableEq

structure ScrapingResult where
  operations : List Operation
  base_url : String
  pages_scraped : Nat
  raw_markdown : String
  auth_content : String := ""
deriving DecidableEq

/-- Identity key of an operation. -/
def opKey (op : Operation) : String × String := (op.method, op.path)

/-! ## Operation extractor: verb+path scan (`HTTP_METHOD_PATTERN`) -/

def HTTP_VERBS : List String :=
  ["GET", "POST", "PUT", "PATCH", "DELETE", "HEAD", "OPTIONS"]

/-- Try each verb alternative (case-insensitively) at the current position.
No two alternatives can match at the same position, so trying them in
order is exactly the regex alternation semantics. -/
def tryVerb : List String → List Char → Option (String × List Char)
  | [], _ => none
  | v :: vs, cs =>
    match ciStrip (pyLower v).data cs with
    | some rest => some (v, rest)
    | none => tryVerb vs cs

/-- Character class of the path token in `HTTP_METHOD_PATTERN`:
`[^\s\)\"\'<>\n]` (note: only the closing parenthesis is excluded). -/
def src_path_char (c : Char) : Bool :=
  !(isWs c || c == ')' || c == '"' || c == '\'' || c == '<' || c == '>')

/-- Modelled from the spec: the path-token class described as "excluding
whitespace, quotes, parentheses, and angle brackets" — both parentheses
excluded, unlike `src_path_char`. -/
def spec_path_char (c : Char) : Bool :=
  !(isWs c || c == '(' || c == ')' || c == '"' || c == '\'' || c == '<' || c == '>')

structure VerbMatch where
  mstart : Nat
  mend : Nat
  method : String
  rawPath : List Char
deriving DecidableEq

/-- Try `\b(VERB)\s+(/[c]+)` at the current position; `prevWord` says
whether the preceding character is a word character (for `\b`; verbs start
with a word character, so the boundary holds iff the previous character is
not one).  Returns the canonical upper-case method, the path token, and
the matched length. -/
def tryHttpAt (pathChar : Char → Bool) (prevWord : Bool) (cs : List Char) :
    Option (String × List Char × Nat) :=
  if prevWord then none
  else
    match tryVerb HTTP_VERBS cs with
    | none => none
    | some (v, rest1) =>
      let ws := rest1.takeWhile isWs
      if ws.isEmpty then none
      else
        match rest1.drop ws.length with
        | '/' :: rest3 =>
          let body := rest3.takeWhile pathChar
          if body.isEmpty then none
          else some (v, '/' :: body, v.length + ws.length + 1 + body.length)
        | _ => none

/-- `re.finditer` for the verb+path pattern: leftmost, non-overlapping;
after a match the scan resumes at the match end. -/
def httpFind (pathChar : Char → Bool) :
    Nat → Bool → List Char → Nat → List VerbMatch
  | 0, _, _, _ => []
  | fuel + 1, pw, cs, pos =>
    match cs with
    | [] => []
    | c :: rest =>
      match tryHttpAt pathChar pw cs with
      | some (v, path, len) =>
        { mstart := pos, mend := pos + len, method := v, rawPath := path } ::
          httpFind pathChar fuel (wordChar (path.getLastD '/')) (cs.drop len) (pos + len)
      | none => httpFind pathChar fuel (wordChar c) rest (pos + 1)

/-- The backward description scan: the first line (scanning the reversed
line list) whose strip is non-empty, does not start with `#`, and has
length > 10. -/
def findDescr : List (List Char) → String
  | [] => ""
  | l :: ls =>
    let s := pyStrip l
    if s.isEmpty then findDescr ls
    else if s.headD ' ' == '#' then findDescr ls
    else if 10 < s.length then String.mk s
    else findDescr ls

def startsSlash : List Char → Bool
  | '/' :: _ => true
  | _ => false

/-- The body of the first `for match in HTTP_METHOD_PATTERN.finditer(...)`
loop: trim the path, apply the validity checks, deduplicate against the
page-local seen set, and build the Operation with its context windows. -/
def verb_pass_go (content : List Char) (source_url : String) :
    List VerbMatch → List (String × String) → List Operation × List (String × String)
  | [], seen => ([], seen)
  | m :: ms, seen =>
    let path := pyRstrip ".,;:)".data m.rawPath
    if startsSlash path && decide (2 ≤ path.length) then
      let key := (m.method, String.mk path)
      if decide (key ∈ seen) then verb_pass_go content source_url ms seen
      else
        let seen' := key :: seen
        let wstart := m.mstart - 500
        let wend := min content.length (m.mend + 2000)
        let context := (content.drop wstart).take (wend - wstart)
        let pre := (content.drop wstart).take (m.mstart - wstart)
        let description := findDescr (splitNl (pyStrip pre)).reverse
        let op : Operation :=
          { method := m.method, path := String.mk path, summary := "",
            description := description, examples := [],
            parameters_text := String.mk context, source_url := source_url }
        let r := verb_pass_go content source_url ms seen'
        (op :: r.1, r.2)
    else verb_pass_go content source_url ms seen

def verb_pass_with (pathChar : Char → Bool) (content : List Char)
    (source_url : String) : List Operation × List (String × String) :=
  verb_pass_go content source_url
    (httpFind pathChar (content.length + 1) false content 0) []

/-- The first pass of `extract_operations_from_content` together with the
page-local seen set it leaves behind. -/
def verb_pass (content : List Char) (source_url : String) :
    List Operation × List (String × String) :=
  verb_pass_with src_path_char content source_url

/-- Modelled from the spec: the verb+path scan with the spec's path-token
class, for comparison with `verb_pass`. -/
def spec_verb_pass (content : List Char) (source_url : String) :
    List Operation × List (String × String) :=
  verb_pass_with spec_path_char content source_url

/-! ## Operation extractor: cURL scan (`CURL_PATTERN`) -/

def CURL_METHODS : List String := ["GET", "POST", "PUT", "PATCH", "DELETE"]

/-- The URL alternation `(https?://[^\s\"\']+|[\"\'](https?://[^\s\"\']+)[\"\'])`
tried at the current position (bare form first, then quoted form; the two
cannot both apply).  Returns the length of `group(2)`, the whole
alternation — always truthy, so `url_match = match.group(2)` in the code. -/
def tryUrlAlt (cs : List Char) : Option Nat :=
  match ciStrip "http".data cs with
  | some r1 =>
    let sOpt := if (r1.headD ' ').toLower == 's' then 1 else 0
    match litStrip "://".data (r1.drop sOpt) with
    | some r2 =>
      let body := r2.takeWhile (fun c => !(isWs c || c == '"' || c == '\''))
      if body.isEmpty then none else some (4 + sOpt + 3 + body.length)
    | none => none
  | none =>
    match cs with
    | q :: rest =>
      if q == '"' || q == '\'' then
        match ciStrip "http".data rest with
        | some r1 =>
          let sOpt := if (r1.headD ' ').toLower == 's' then 1 else 0
          match litStrip "://".data (r1.drop sOpt) with
          | some r2 =>
            let body := r2.takeWhile (fun c => !(isWs c || c == '"' || c == '\''))
            if body.isEmpty then none
            else
              match r2.drop body.length with
              | q2 :: _ =>
                if q2 == '"' || q2 == '\'' then
                  some (1 + 4 + sOpt + 3 + body.length + 1)
                else none
              | [] => none
          | none => none
        | none => none
      else none
    | [] => none

/-- The second lazy gap `.*?` (DOTALL) before the URL alternation: shortest
gap whose continuation matches.  Returns `(gap, group(2) length)`. -/
def curlLazy2 : Nat → List Char → Option (Nat × Nat)
  | 0, _ => none
  | fuel + 1, cs =>
    match tryUrlAlt cs with
    | some ulen => some (0, ulen)
    | none =>
      match cs with
      | [] => none
      | _ :: rest => (curlLazy2 fuel rest).map (fun p => (p.1 + 1, p.2))

/-- The continuation `(?:--request|-X)\s+(METHOD)\s+.*?(URL)` tried at an
offset inside the first lazy gap.  The flag alternatives and the method
alternatives are pairwise disjoint at any one position, so no backtracking
across them is possible.  Returns `(method, consumed length, group(2) length)`. -/
def curlCont (cs : List Char) : Option (String × Nat × Nat) :=
  let flag : Option (Nat × List Char) :=
    match ciStrip "--request".data cs with
    | some r => some (9, r)
    | none =>
      match ciStrip "-x".data cs with
      | some r => some (2, r)
      | none => none
  match flag with
  | none => none
  | some (flen, r1) =>
    let ws1 := r1.takeWhile isWs
    if ws1.isEmpty then none
    else
      match tryVerb CURL_METHODS (r1.drop ws1.length) with
      | none => none
      | some (v, r2) =>
        let ws2 := r2.takeWhile isWs
        if ws2.isEmpty then none
        else
          match curlLazy2 ((r2.drop ws2.length).length + 1) (r2.drop ws2.length) with
          | none => none
          | some (gap, ulen) =>
            some (v, flen + ws1.length + v.length + ws2.length + gap + ulen, ulen)

/-- The first lazy gap `.*?` (DOTALL) after `curl\s+`.  Returns
`(method, consumed length from the gap start, group(2) length)`. -/
def curlLazy1 : Nat → List Char → Option (String × Nat × Nat)
  | 0, _ => none
  | fuel + 1, cs =>
    match curlCont cs with
    | some r => some r
    | none =>
      match cs with
      | [] => none
      | _ :: rest => (curlLazy1 fuel rest).map (fun p => (p.1, p.2.1 + 1, p.2.2))

structure CurlMatch where
  mstart : Nat
  mend : Nat
  method : String
  urlText : List Char
deriving DecidableEq

/-- Try the whole `CURL_PATTERN` at the current position. -/
def tryCurlAt (cs : List Char) : Option (String × List Char × Nat) :=
  match ciStrip "curl".data cs with
  | none => none
  | some r1 =>
    let ws := r1.takeWhile isWs
    if ws.isEmpty then none
    else
      match curlLazy1 ((r1.drop ws.length).length + 1) (r1.drop ws.length) with
      | none => none
      | some (v, len, ulen) =>
        let total := 4 + ws.length + len
        some (v, (cs.take total).drop (total - ulen), total)

/-- `re.finditer` for `CURL_PATTERN`: leftmost, non-overlapping. -/
def curlFind : Nat → List Char → Nat → List CurlMatch
  | 0, _, _ => []
  | fuel + 1, cs, pos =>
    match cs with
    | [] => []
    | _ :: rest =>
      match tryCurlAt cs with
      | some (v, utext, len) =>
        { mstart := pos, mend := pos + len, method := v, urlText := utext } ::
          curlFind fuel (cs.drop len) (pos + len)
      | none => curlFind fuel rest (pos + 1)

/-- Python `content.rfind(pat, 0, stop)`: start index of the rightmost
occurrence of `pat` lying entirely inside `content[0:stop]`. -/
def pyRfind (pat content : List Char) (stop : Nat) : Option Nat :=
  (List.range (content.length + 1)).foldl
    (fun acc i =>
      if decide (i + pat.length ≤ stop) && pat.isPrefixOf (content.drop i) then
        some i
      else acc)
    none

/-- Python `content.find(pat, start)`. -/
def pyFindFrom (pat content : List Char) (start : Nat) : Option Nat :=
  (findPat pat (content.drop start)).map (· + start)

/-- The second `for match in CURL_PATTERN.finditer(...)` loop, threading the
page-local seen set left by the verb+path pass. -/
def curl_pass (content : List Char) (source_url : String) :
    List CurlMatch → List (String × String) → List Operation
  | [], _ => []
  | m :: ms, seen =>
    let stripped := pyStripChars "\"'".data m.urlText
    let path := (urlparse3 stripped).2.2
    if path.isEmpty || path == ['/'] then curl_pass content source_url ms seen
    else
      let key := (m.method, String.mk path)
      if decide (key ∈ seen) then curl_pass content source_url ms seen
      else
        let seen' := key :: seen
        match pyRfind "curl".data content (m.mstart + 10) with
        | none => curl_pass content source_url ms seen'
        | some cstart =>
          let cend :=
            match pyFindFrom "\n\n".data content m.mend with
            | some j => j
            | none => min content.length (m.mend + 500)
          let ex := pyStrip ((content.drop cstart).take (cend - cstart))
          { method := m.method, path := String.mk path, summary := "",
            description := "", examples := [String.mk ex],
            parameters_text := "", source_url := source_url } ::
            curl_pass content source_url ms seen'

/-- `extract_operations_from_content(content, source_url)`: the verb+path
pass followed by the cURL pass over the shared page-local seen set. -/
def extract_operations_from_content (content : List Char) (source_url : String) :
    List Operation :=
  let v := verb_pass content source_url
  v.1 ++ curl_pass content source_url (curlFind (content.length + 1) content 0) v.2

/-! ## Auth section extractor (`AUTH_HEADING_PATTERN`, `extract_auth_sections`) -/

/-- The alternation of `AUTH_HEADING_PATTERN`, written as word lists:
multi-word entries are joined by `\s+` in the pattern.  Order is the
regex alternation order. -/
def AUTH_KEYWORDS : List (List String) :=
  [["authentication"], ["authorization"], ["auth"], ["oauth"],
   ["getting", "started"], ["access", "token"], ["api", "key"],
   ["credentials"], ["client", "credentials"]]

/-- Match one keyword alternative (case-insensitively, `\s+` between
words); returns the number of characters consumed. -/
def tryKwWords : List String → List Char → Option Nat
  | [], _ => some 0
  | w :: ws, cs =>
    match ciStrip (pyLower w).data cs with
    | none => none
    | some r =>
      match ws with
      | [] => some w.length
      | _ =>
        let run := r.takeWhile isWs
        if run.isEmpty then none
        else (tryKwWords ws (r.drop run.length)).map (w.length + run.length + ·)

/-- First keyword alternative that matches (regex alternation order). -/
def tryAuthKw : List (List String) → List Char → Option Nat
  | [], _ => none
  | kw :: kws, cs =>
    match tryKwWords kw cs with
    | some n => some n
    | none => tryAuthKw kws cs

/-- Try `#+\s*(keyword)` at the current position (the `^` anchor is checked
by the caller); returns the matched length `group(0)`. -/
def tryAuthAt (cs : List Char) : Option Nat :=
  let hashes := cs.takeWhile (· == '#')
  if hashes.isEmpty then none
  else
    let r1 := cs.drop hashes.length
    let run := r1.takeWhile isWs
    match tryAuthKw AUTH_KEYWORDS (r1.drop run.length) with
    | none => none
    | some klen => some (hashes.length + run.length + klen)

structure AuthMatch where
  mstart : Nat
  mend : Nat
  group0 : List Char
deriving DecidableEq

/-- `re.finditer` for `AUTH_HEADING_PATTERN` (MULTILINE: matches only at
the start of the text or right after a newline). -/
def authFind : Nat → Bool → List Char → Nat → List AuthMatch
  | 0, _, _, _ => []
  | fuel + 1, atLS, cs, pos =>
    match cs with
    | [] => []
    | c :: rest =>
      match if atLS then tryAuthAt cs else none with
      | some len =>
        { mstart := pos, mend := pos + len, group0 := cs.take len } ::
          authFind fuel ((cs.take len).getLastD ' ' == '\n') (cs.drop len) (pos + len)
      | none => authFind fuel (c == '\n') rest (pos + 1)

/-- Does `^#{1,level}\s+\S` (MULTILINE) match at this position?  Only the
full leading `#` run can satisfy the bounded repetition (a shorter prefix
is followed by `#`, which is not `\s`), so the condition is: the run has
between 1 and `level` markers and is followed by whitespace and then a
non-whitespace character. -/
def headingMatchAt (level : Nat) (cs : List Char) : Bool :=
  let ks := cs.takeWhile (· == '#')
  if ks.isEmpty || decide (level < ks.length) then false
  else
    let r := cs.drop ks.length
    let run := r.takeWhile isWs
    !run.isEmpty && !(r.drop run.length).isEmpty

/-- `next_heading_pattern.search(markdown, from)`: first position `≥ from`
at a line start where `#{1,level}\s+\S` matches. -/
def searchHeading (level : Nat) : Nat → Bool → List Char → Nat → Option Nat
  | 0, _, _, _ => none
  | fuel + 1, atLS, cs, pos =>
    match cs with
    | [] => none
    | c :: rest =>
      if atLS && headingMatchAt level cs then some pos
      else searchHeading level fuel (c == '\n') rest (pos + 1)

/-- Is position `p` of `md` at a line start (`^` with MULTILINE)? -/
def lineStartAt (md : List Char) (p : Nat) : Bool :=
  p == 0 || md.getD (p - 1) ' ' == '\n'

/-- `extract_auth_sections`, parametrized by the heading-level function
applied to each match's `group(0)`. -/
def extract_auth_sections_with (levelFn : List Char → Nat) (md : List Char) : String :=
  let ms := authFind (md.length + 1) true md 0
  let sections := ms.filterMap (fun m =>
    let level := levelFn m.group0
    let send :=
      match searchHeading level (md.length + 1) (lineStartAt md m.mend)
          (md.drop m.mend) m.mend with
      | some q => q
      | none => md.length
    let sec := pyStrip ((md.drop m.mstart).take (send - m.mstart))
    if sec.isEmpty then none else some (String.mk sec))
  String.intercalate "\n\n---\n\n" sections

/-- The source's heading level: `len(match.group(0).split()[0])` — the
length of the first whitespace-delimited token of the matched text. -/
def pyFirstTokenLen (l : List Char) : Nat :=
  ((l.dropWhile isWs).takeWhile (fun c => !isWs c)).length

/-- `extract_auth_sections(markdown)` as implemented. -/
def extract_auth_sections (md : List Char) : String :=
  extract_auth_sections_with pyFirstTokenLen md

/-- The number of leading `#` markers of the matched heading text. -/
def leadingHashCount (l : List Char) : Nat := (l.takeWhile (· == '#')).length

/-- Modelled from the spec: the section extractor with "nesting level =
count of leading heading markers", for comparison with
`extract_auth_sections`. -/
def spec_extract_auth_sections (md : List Char) : String :=
  extract_auth_sections_with leadingHashCount md

/-! ## Base URL detector (`detect_api_base_url`) -/

def hostChar (c : Char) : Bool := c.isAlpha || c.isDigit || c == '.' || c == '-'

/-- The optional `(?:/v\d+)?` suffix: number of characters it consumes. -/
def optVer (cs : List Char) : Nat :=
  match cs with
  | '/' :: 'v' :: r =>
    let ds := r.takeWhile Char.isDigit
    if ds.isEmpty then 0 else 2 + ds.length
  | _ => 0

/-- `https?://api\.[a-zA-Z0-9.-]+(?:/v\d+)?` at the current position
(case-sensitive: `re.findall` here has no flags). -/
def p1At (cs : List Char) : Option Nat :=
  (litStrip "http".data cs).bind fun r1 =>
    let sOpt := if r1.headD ' ' == 's' then 1 else 0
    (litStrip "://api.".data (r1.drop sOpt)).bind fun r3 =>
      let host := r3.takeWhile hostChar
      if host.isEmpty then none
      else some (4 + sOpt + 7 + host.length + optVer (r3.drop host.length))

/-- `https?://[a-zA-Z0-9.-]+/api(?:/v\d+)?` at the current position. -/
def p2At (cs : List Char) : Option Nat :=
  (litStrip "http".data cs).bind fun r1 =>
    let sOpt := if r1.headD ' ' == 's' then 1 else 0
    (litStrip "://".data (r1.drop sOpt)).bind fun r2 =>
      let host := r2.takeWhile hostChar
      if host.isEmpty then none
      else
        (litStrip "/api".data (r2.drop host.length)).bind fun r3 =>
          some (4 + sOpt + 3 + host.length + 4 + optVer r3)

/-- `https?://[a-zA-Z0-9.-]+/v\d+` at the current position. -/
def p3At (cs : List Char) : Option Nat :=
  (litStrip "http".data cs).bind fun r1 =>
    let sOpt := if r1.headD ' ' == 's' then 1 else 0
    (litStrip "://".data (r1.drop sOpt)).bind fun r2 =>
      let host := r2.takeWhile hostChar
      if host.isEmpty then none
      else
        match r2.drop host.length with
        | '/' :: 'v' :: r3 =>
          let ds := r3.takeWhile Char.isDigit
          if ds.isEmpty then none
          else some (4 + sOpt + 3 + host.length + 2 + ds.length)
        | _ => none

/-- `re.findall` for a group-free pattern: the list of matched substrings,
leftmost and non-overlapping. -/
def findallP (p : List Char → Option Nat) : Nat → List Char → List (List Char)
  | 0, _ => []
  | fuel + 1, cs =>
    match cs with
    | [] => []
    | _ :: rest =>
      match p cs with
      | some len => cs.take len :: findallP p fuel (cs.drop len)
      | none => findallP p fuel rest

/-- First-occurrence-preserving dedup (the iteration order of a `Counter`). -/
def firstDedupGo : List (List Char) → List (List Char) → List (List Char)
  | [], _ => []
  | x :: rest, seen =>
    if decide (x ∈ seen) then firstDedupGo rest seen
    else x :: firstDedupGo rest (x :: seen)

def firstDedup (l : List (List Char)) : List (List Char) := firstDedupGo l []

/-- `Counter(matches).most_common(1)`: the most frequent match; ties are
broken by first occurrence (`Counter` preserves insertion order and
`most_common` sorts stably by descending count). -/
def mostCommonFirst (l : List (List Char)) : Option (List Char) :=
  (firstDedup l).foldl
    (fun best cand =>
      match best with
      | none => some cand
      | some b => if decide (l.count b < l.count cand) then some cand else best)
    none

/-- Python `str.replace(old, new)` with `new = ""`: removes every
occurrence of `old`, scanning left to right without overlap. -/
def removeAllOcc (pat : List Char) : Nat → List Char → List Char
  | 0, l => l
  | fuel + 1, l =>
    if pat.isPrefixOf l && !pat.isEmpty then removeAllOcc pat fuel (l.drop pat.length)
    else
      match l with
      | [] => []
      | c :: r => c :: removeAllOcc pat fuel r

/-- `parsed.netloc.replace('www.', '')` — note: removes every occurrence
of the substring `www.`, not only a leading one. -/
def removeWww (nl : String) : String :=
  String.mk (removeAllOcc "www.".data nl.data.length nl.data)

/-- `detect_api_base_url(markdown_parts, domain)`. -/
def detect_api_base_url (markdown_parts : List String) (domain : String) : String :=
  let combined := (String.intercalate "\n" markdown_parts).data
  let m1 := findallP p1At (combined.length + 1) combined
  if !m1.isEmpty then String.mk ((mostCommonFirst m1).getD [])
  else
    let m2 := findallP p2At (combined.length + 1) combined
    if !m2.isEmpty then String.mk ((mostCommonFirst m2).getD [])
    else
      let m3 := findallP p3At (combined.length + 1) combined
      if !m3.isEmpty then String.mk ((mostCommonFirst m3).getD [])
      else "https://api." ++ removeWww (netloc_of domain)

/-- Modelled from the spec: the fallback synthesis described as
`https://api.<host-without-leading-www>` — only a leading `www.` removed. -/
def spec_fallback_base (domain : String) : String :=
  let nl := netloc_of domain
  "https://api." ++ (if "www.".data.isPrefixOf nl.data then String.mk (nl.data.drop 4) else nl)

/-! ## Dedup & merge (`merge_operations`) -/

def defaultOp : Operation :=
  { method := "", path := "", summary := "", description := "", examples := [],
    parameters_text := "", source_url := "" }

/-- First binding of a key in the insertion-ordered dict model. -/
def tblLookup (k : String × String) : List ((String × String) × Nat) → Option Nat
  | [] => none
  | (k', j) :: rest => if k' = k then some j else tblLookup k rest

/-- The duplicate-key branch of one `merge_operations` iteration.  Python
stores references: `merged[key] = op` aliases the input object, so
`existing.examples.extend(...)`, `existing.description = ...` and
`existing.parameters_text += ...` mutate the first input operation with
that key.  The heap holds the current state of the input objects. -/
def mergeStep (heap : List Operation) (op : Operation) (j : Nat) : List Operation :=
  let e := heap.getD j defaultOp
  let e' : Operation :=
    { e with
      examples := e.examples ++ op.examples,
      description :=
        if decide (e.description.length < op.description.length) then op.description
        else e.description,
      parameters_text :=
        if op.parameters_text != "" &&
            !substr_in op.parameters_text e.parameters_text then
          e.parameters_text ++ "\n\n" ++ op.parameters_text
        else e.parameters_text }
  heap.set j e'

def mergeGo : List Operation → Nat → List Operation →
    List ((String × String) × Nat) → List Operation × List ((String × String) × Nat)
  | [], _, heap, tbl => (heap, tbl)
  | op :: rest, i, heap, tbl =>
    match tblLookup (opKey op) tbl with
    | none => mergeGo rest (i + 1) heap (tbl ++ [(opKey op, i)])
    | some j => mergeGo rest (i + 1) (mergeStep heap op j) tbl

/-- `merge_operations(operations)`.  The first component is the post-call
state of the input operations (Python mutates them in place; distinct list
positions are distinct objects); the second component is the returned
`list(merged.values())` (dict preserves key insertion order). -/
def merge_operations (ops : List Operation) : List Operation × List Operation :=
  let r := mergeGo ops 0 ops []
  (r.1, r.2.map (fun kj => r.1.getD kj.2 defaultOp))

/-! ## Stable sorting (Python `list.sort`) -/

/-- Stable insertion: the new element goes after every element with a
strictly smaller key and after earlier equal-key elements. -/
def insertStable {α : Type} (lt : α → α → Bool) (x : α) : List α → List α
  | [] => [x]
  | y :: ys => if lt y x then y :: insertStable lt x ys else x :: y :: ys

/-- Stable ascending sort.  Python's `list.sort` is also stable, and a
stable ascending sort by a total key order has a unique result, so this
computes exactly the list `list.sort(key=...)` produces. -/
def sortStable {α : Type} (lt : α → α → Bool) : List α → List α
  | [] => []
  | x :: xs => insertStable lt x (sortStable lt xs)

/-- Strict key comparison for `pages_to_visit.sort(key=lambda x: x[0])`. -/
def natFstLt (a b : Nat × String) : Bool := decide (a.1 < b.1)

/-- Strict key comparison for `sort(key=lambda op: (op.path, op.method))`
(Python compares strings by code point, as Lean's `String` order does). -/
def opPairLt (a b : Operation) : Bool :=
  decide (a.path < b.path) || (a.path == b.path && decide (a.method < b.method))

/-! ## Crawl model (`scrape_documentation`) -/

/-- One anchor element: raw `href`, anchor text, and the `urljoin
(page_url, href)` absolute URL resolved by the (modelled) collaborator. -/
structure Anchor where
  href : String
  text : String
  absUrl : String
deriving DecidableEq

/-- A successfully fetched page: the anchors found inside structural
navigation containers (`nav`/`aside`/sidebar/menu/nav/toc, in document
order), all anchors of the page (the nav ones included, as
`soup.find_all("a")` returns them), and the converted markdown (MarkItDown
output or the plain-text fallback; `""` models falsy markdown). -/
structure FetchedPage where
  navAnchors : List Anchor
  allAnchors : List Anchor
  markdown : String
deriving DecidableEq

/-- The fetch collaborator: `none` models `httpx.HTTPError` (timeout,
transport error, or a non-success status via `raise_for_status`). -/
def World : Type := String → Option FetchedPage

/-- The mutable crawl state: `visited` in fetch-attempt order (the code
adds a URL exactly once, right before attempting its fetch, so the list is
also the fetch-attempt trace; membership and length give the Python set
semantics), the accumulators, and the frontier `pages_to_visit`. -/
structure CrawlState where
  visited : List String
  all_operations : List Operation
  markdown_parts : List String
  auth_content_parts : List String
  frontier : List (Nat × String)
deriving DecidableEq

/-- The first loop of `extract_navigation_links`: anchors inside
structural containers; accumulates `nav_links` and appends `(priority,
clean_url)` pairs. -/
def navPass (domain base_path : String) (visited : List String) :
    List Anchor → List String → List String × List (Nat × String)
  | [], navAcc => (navAcc, [])
  | a :: rest, navAcc =>
    let clean := clean_url a.absUrl
    if is_valid_doc_link a.href domain && !decide (clean ∈ visited) then
      let p := get_link_priority base_path a.href a.text
      if decide (p < 999) then
        let r := navPass domain base_path visited rest (navAcc ++ [clean])
        (r.1, (p, clean) :: r.2)
      else navPass domain base_path visited rest navAcc
    else navPass domain base_path visited rest navAcc

/-- The second loop of `extract_navigation_links`: every anchor of the
page, skipped when already captured via a structural container, with a
+20 priority penalty. -/
def contentPass (domain base_path : String) (visited navLinks : List String) :
    List Anchor → List (Nat × String)
  | [] => []
  | a :: rest =>
    let clean := clean_url a.absUrl
    if !decide (clean ∈ navLinks) && !decide (clean ∈ visited) then
      if is_valid_doc_link a.href domain then
        let p := get_link_priority base_path a.href a.text + 20
        if decide (p < 999) then
          (p, clean) :: contentPass domain base_path visited navLinks rest
        else contentPass domain base_path visited navLinks rest
      else contentPass domain base_path visited navLinks rest
    else contentPass domain base_path visited navLinks rest

/-- `extract_navigation_links(soup, page_url)`. -/
def extract_navigation_links (domain base_path : String) (visited : List String)
    (pg : FetchedPage) : List (Nat × String) :=
  let r := navPass domain base_path visited pg.navAnchors []
  r.2 ++ contentPass domain base_path visited r.1 pg.allAnchors

/-- `scrape_page(page_url)`: mark visited before the fetch attempt; a
failed fetch contributes nothing; otherwise extract links, then (when the
converted markdown is truthy) append the markdown part, the page's
operations, and the auth content. -/
def scrape_page (world : World) (domain base_path : String)
    (st : CrawlState) (page_url : String) : CrawlState × List (Nat × String) :=
  if decide (page_url ∈ st.visited) then (st, [])
  else
    let st1 := { st with visited := st.visited ++ [page_url] }
    match world page_url with
    | none => (st1, [])
    | some pg =>
      let links := extract_navigation_links domain base_path st1.visited pg
      let md := pg.markdown
      if md == "" then (st1, links)
      else
        let st2 := { st1 with
          markdown_parts := st1.markdown_parts ++
            ["# Source: " ++ page_url ++ "\n\n" ++ md ++ "\n\n---\n"],
          all_operations := st1.all_operations ++
            extract_operations_from_content md.data page_url }
        let st3 :=
          if is_auth_related_url page_url then
            { st2 with auth_content_parts := st2.auth_content_parts ++
                ["# Auth Source: " ++ page_url ++ "\n\n" ++ md] }
          else
            let s := extract_auth_sections md.data
            if s != "" then
              { st2 with auth_content_parts := st2.auth_content_parts ++
                  ["# Auth Section from: " ++ page_url ++ "\n\n" ++ s] }
            else st2
        (st3, links)

/-- The `while pages_to_visit and len(visited) < max_pages` loop.  The
Python loop always terminates (each iteration pops one frontier entry, and
entries are only added by one of at most `max_pages` fetches); `fuel`
bounds the number of iterations, and every property proved below holds for
every fuel — in particular for any fuel large enough to run the loop to
completion, which is the Python behaviour. -/
def crawlLoop (world : World) (domain base_path : String) (max_pages : Nat) :
    Nat → CrawlState → CrawlState
  | 0, st => st
  | fuel + 1, st =>
    if st.frontier ≠ [] ∧ st.visited.length < max_pages then
      match sortStable natFstLt st.frontier with
      | [] => st
      | (_, current) :: rest =>
        if decide (current ∈ st.visited) then
          crawlLoop world domain base_path max_pages fuel { st with frontier := rest }
        else
          let r := scrape_page world domain base_path { st with frontier := rest } current
          crawlLoop world domain base_path max_pages fuel
            { r.1 with frontier :=
                r.1.frontier ++ r.2.filter (fun pl => !decide (pl.2 ∈ r.1.visited)) }
    else st

def initState (url : String) : CrawlState :=
  { visited := [], all_operations := [], markdown_parts := [],
    auth_content_parts := [], frontier := [(0, url)] }

/-- The crawl state when `scrape_documentation(url, max_pages)` leaves its
loop. -/
def crawl_final_state (world : World) (url : String) (max_pages fuel : Nat) :
    CrawlState :=
  crawlLoop world (seed_domain url) (base_path_of url) max_pages fuel (initState url)

/-- The finishing dedup over `all_operations`: first occurrence per
`(method, path)` key wins. -/
def dedup_ops : List Operation → List (String × String) → List Operation
  | [], _ => []
  | op :: rest, seen =>
    if decide (opKey op ∈ seen) then dedup_ops rest seen
    else op :: dedup_ops rest (opKey op :: seen)

/-- `scrape_documentation(url, max_pages)` (the Python default for
`max_pages` is 200). -/
def scrape_documentation (world : World) (url : String) (max_pages : Nat)
    (fuel : Nat) : ScrapingResult :=
  let st := crawl_final_state world url max_pages fuel
  { operations := sortStable opPairLt (dedup_ops st.all_operations []),
    base_url := detect_api_base_url st.markdown_parts (seed_domain url),
    pages_scraped := st.visited.length,
    raw_markdown := String.intercalate "\n" st.markdown_parts,
    auth_content := String.intercalate "\n\n---\n\n" st.auth_content_parts }

/-! ## Lemmas: stable sort -/

theorem insertStable_perm {a : Type} (lt : a -> a -> Bool) (x : a) (l : List a) :
    List.Perm (insertStable lt x l) (x :: l) := by
  induction l with
  | nil => rfl
  | cons y ys ih =>
    simp only [insertStable]
    split
    . exact (ih.cons y).trans (List.Perm.swap x y ys)
    . rfl

theorem sortStable_perm {a : Type} (lt : a -> a -> Bool) (l : List a) :
    List.Perm (sortStable lt l) l := by
  induction l with
  | nil => rfl
  | cons x xs ih => exact (insertStable_perm lt x _).trans (ih.cons x)

theorem insertStable_pairwise {a : Type} (lt : a -> a -> Bool)
    (hasym : forall p q, lt p q = true -> lt q p = false)
    (htrans : forall p q r, lt p q = false -> lt q r = false -> lt p r = false)
    (x : a) (l : List a)
    (hl : l.Pairwise (fun p q => lt q p = false)) :
    (insertStable lt x l).Pairwise (fun p q => lt q p = false) := by
  induction l with
  | nil => simp [insertStable]
  | cons y ys ih =>
    rcases List.pairwise_cons.mp hl with ⟨hy, hys⟩
    simp only [insertStable]
    split
    next hcase =>
      refine List.pairwise_cons.mpr ⟨?_, ih hys⟩
      intro z hz
      rcases List.mem_cons.mp ((insertStable_perm lt x ys).mem_iff.mp hz) with hzx | hz
      . subst hzx; exact hasym y z hcase
      . exact hy z hz
    next hcase =>
      refine List.pairwise_cons.mpr ⟨?_, hl⟩
      intro z hz
      rcases List.mem_cons.mp hz with hzy | hz
      . subst hzy; exact Bool.of_not_eq_true hcase
      . exact htrans z y x (hy z hz) (Bool.of_not_eq_true hcase)

theorem sortStable_pairwise {a : Type} (lt : a -> a -> Bool)
    (hasym : forall p q, lt p q = true -> lt q p = false)
    (htrans : forall p q r, lt p q = false -> lt q r = false -> lt p r = false)
    (l : List a) :
    (sortStable lt l).Pairwise (fun p q => lt q p = false) := by
  induction l with
  | nil => simp [sortStable]
  | cons x xs ih => exact insertStable_pairwise lt hasym htrans x _ ih

/-! ## Lemmas: the operation key order and the finishing dedup -/

theorem opPairLt_iff (p q : Operation) :
    opPairLt p q = true ↔ p.path < q.path ∨ (p.path = q.path ∧ p.method < q.method) := by
  simp [opPairLt, Bool.or_eq_true, Bool.and_eq_true, decide_eq_true_eq, beq_iff_eq]

theorem opPairLt_false_iff (p q : Operation) :
    opPairLt p q = false ↔ q.path < p.path ∨ (q.path = p.path ∧ q.method ≤ p.method) := by
  rw [Bool.eq_false_iff]
  constructor
  · intro h
    rcases lt_trichotomy q.path p.path with hp | hp | hp
    · exact Or.inl hp
    · refine Or.inr ⟨hp, ?_⟩
      by_contra hm
      exact h ((opPairLt_iff p q).mpr (Or.inr ⟨hp.symm, not_le.mp hm⟩))
    · exact absurd ((opPairLt_iff p q).mpr (Or.inl hp)) h
  · intro h h'
    rcases (opPairLt_iff p q).mp h' with h1 | ⟨he, h2⟩
    · rcases h with g1 | ⟨ge, _⟩
      · exact absurd (lt_trans h1 g1) (lt_irrefl _)
      · exact absurd h1 (ge ▸ lt_irrefl _)
    · rcases h with g1 | ⟨_, g2⟩
      · exact absurd g1 (he ▸ lt_irrefl _)
      · exact absurd (lt_of_lt_of_le h2 g2) (lt_irrefl _)

theorem opPairLt_asymm (p q : Operation) (h : opPairLt p q = true) :
    opPairLt q p = false := by
  rw [opPairLt_false_iff]
  rcases (opPairLt_iff p q).mp h with h1 | ⟨he, h2⟩
  · exact Or.inl h1
  · exact Or.inr ⟨he, le_of_lt h2⟩

theorem opPairLt_trans_false (p q r : Operation) (hpq : opPairLt p q = false)
    (hqr : opPairLt q r = false) : opPairLt p r = false := by
  rw [opPairLt_false_iff] at *
  rcases hpq with g1 | ⟨ge, g2⟩ <;> rcases hqr with h1 | ⟨he, h2⟩
  · exact Or.inl (lt_trans h1 g1)
  · exact Or.inl (by rw [he]; exact g1)
  · exact Or.inl (by rw [← ge]; exact h1)
  · exact Or.inr ⟨he.trans ge, le_trans h2 g2⟩

theorem dedup_ops_not_seen (l : List Operation) :
    ∀ seen, ∀ o ∈ dedup_ops l seen, opKey o ∉ seen := by
  induction l with
  | nil => intro seen o ho; simp [dedup_ops] at ho
  | cons op rest ih =>
    intro seen o ho
    by_cases hk : opKey op ∈ seen
    · rw [dedup_ops, if_pos (by exact decide_eq_true hk)] at ho
      exact ih seen o ho
    · rw [dedup_ops, if_neg (by simpa using hk)] at ho
      rcases List.mem_cons.mp ho with hoe | ho
      · subst hoe; exact hk
      · intro hmem
        exact ih (opKey op :: seen) o ho (List.mem_cons_of_mem _ hmem)

theorem dedup_ops_pairwise (l : List Operation) :
    ∀ seen, (dedup_ops l seen).Pairwise (fun a b => opKey a ≠ opKey b) := by
  induction l with
  | nil => intro seen; simp [dedup_ops]
  | cons op rest ih =>
    intro seen
    by_cases hk : opKey op ∈ seen
    · rw [dedup_ops, if_pos (by exact decide_eq_true hk)]
      exact ih seen
    · rw [dedup_ops, if_neg (by simpa using hk)]
      refine List.pairwise_cons.mpr ⟨?_, ih _⟩
      intro o ho he
      exact dedup_ops_not_seen rest _ o ho (he ▸ List.mem_cons_self _ _)

theorem dedup_ops_find (l : List Operation) :
    ∀ seen, ∀ o ∈ dedup_ops l seen,
      l.find? (fun x => opKey x == opKey o) = some o := by
  induction l with
  | nil => intro seen o ho; simp [dedup_ops] at ho
  | cons op rest ih =>
    intro seen o ho
    by_cases hk : opKey op ∈ seen
    · rw [dedup_ops, if_pos (by exact decide_eq_true hk)] at ho
      have hne : opKey op ≠ opKey o := by
        intro he; exact dedup_ops_not_seen rest seen o ho (he ▸ hk)
      rw [List.find?_cons_of_neg _ (by simpa using hne)]
      exact ih seen o ho
    · rw [dedup_ops, if_neg (by simpa using hk)] at ho
      rcases List.mem_cons.mp ho with hoe | ho
      · subst hoe
        rw [List.find?_cons_of_pos _ (by simp)]
      · have hno := dedup_ops_not_seen rest (opKey op :: seen) o ho
        have hne : opKey op ≠ opKey o := by
          intro he; exact hno (he ▸ List.mem_cons_self _ _)
        rw [List.find?_cons_of_neg _ (by simpa using hne)]
        exact ih (opKey op :: seen) o ho

theorem dedup_ops_covers (l : List Operation) :
    ∀ seen, ∀ x ∈ l, opKey x ∈ seen ∨ ∃ o ∈ dedup_ops l seen, opKey o = opKey x := by
  induction l with
  | nil => intro seen x hx; simp at hx
  | cons op rest ih =>
    intro seen x hx
    by_cases hk : opKey op ∈ seen
    · rw [dedup_ops, if_pos (by exact decide_eq_true hk)]
      rcases List.mem_cons.mp hx with hxe | hx
      · subst hxe; exact Or.inl hk
      · exact ih seen x hx
    · rw [dedup_ops, if_neg (by simpa using hk)]
      rcases List.mem_cons.mp hx with hxe | hx
      · exact Or.inr ⟨op, List.mem_cons_self _ _, by rw [hxe]⟩
      · rcases ih (opKey op :: seen) x hx with hs | ⟨o, ho, he⟩
        · rcases List.mem_cons.mp hs with he | hs
          · exact Or.inr ⟨op, List.mem_cons_self _ _, he.symm⟩
          · exact Or.inl hs
        · exact Or.inr ⟨o, List.mem_cons_of_mem _ ho, he⟩

/-- C2: for every crawl, the `operations` list of the returned
`ScrapingResult` contains no two entries sharing the same `(method, path)`
key; when several accumulated operations share a key the first-seen one is
the one returned (later ones are discarded, though every key stays
represented); and the final list is sorted ascending by `(path, method)`. -/
theorem claim_c2_dedup_and_sort (world : World) (url : String) (max_pages fuel : Nat) :
    ((scrape_documentation world url max_pages fuel).operations.Pairwise
        (fun a b => opKey a ≠ opKey b))
    ∧ ((scrape_documentation world url max_pages fuel).operations.Pairwise
        (fun a b => a.path < b.path ∨ (a.path = b.path ∧ a.method ≤ b.method)))
    ∧ (∀ o ∈ (scrape_documentation world url max_pages fuel).operations,
        (crawl_final_state world url max_pages fuel).all_operations.find?
          (fun x => opKey x == opKey o) = some o)
    ∧ (∀ x ∈ (crawl_final_state world url max_pages fuel).all_operations,
        ∃ o ∈ (scrape_documentation world url max_pages fuel).operations,
          opKey o = opKey x) := by
  have hops : (scrape_documentation world url max_pages fuel).operations
      = sortStable opPairLt (dedup_ops
          (crawl_final_state world url max_pages fuel).all_operations []) := rfl
  have hperm := sortStable_perm opPairLt
    (dedup_ops (crawl_final_state world url max_pages fuel).all_operations [])
  refine ⟨?_, ?_, ?_, ?_⟩
  · rw [hops]
    exact (hperm.pairwise_iff (fun h e => h e.symm)).mpr
      (dedup_ops_pairwise _ [])
  · rw [hops]
    exact (sortStable_pairwise opPairLt opPairLt_asymm opPairLt_trans_false _).imp
      (fun h => (opPairLt_false_iff _ _).mp h)
  · intro o ho
    exact dedup_ops_find _ [] o (hperm.mem_iff.mp (hops ▸ ho))
  · intro x hx
    rcases dedup_ops_covers _ [] x hx with hs | ⟨o, ho, he⟩
    · simp at hs
    · exact ⟨o, by rw [hops]; exact hperm.mem_iff.mpr ho, he⟩

/-! ## Lemmas: the crawl loop and the visited trace -/

theorem scrape_page_visited (world : World) (domain bp : String)
    (st : CrawlState) (u : String) (h : u ∉ st.visited) :
    (scrape_page world domain bp st u).1.visited = st.visited ++ [u] ∧
    (scrape_page world domain bp st u).1.frontier = st.frontier := by
  unfold scrape_page
  rw [if_neg (by simpa using h)]
  cases world u with
  | none => exact ⟨rfl, rfl⟩
  | some pg =>
    dsimp only
    split
    · exact ⟨rfl, rfl⟩
    · split
      · exact ⟨rfl, rfl⟩
      · split
        · exact ⟨rfl, rfl⟩
        · exact ⟨rfl, rfl⟩

theorem crawlLoop_visited_invariant (world : World) (domain bp : String)
    (maxp : Nat) :
    ∀ fuel st, st.visited.Nodup → st.visited.length ≤ maxp →
      ((crawlLoop world domain bp maxp fuel st).visited.Nodup ∧
       (crawlLoop world domain bp maxp fuel st).visited.length ≤ maxp) := by
  intro fuel
  induction fuel with
  | zero => intro st h1 h2; exact ⟨h1, h2⟩
  | succ fuel ih =>
    intro st h1 h2
    rw [crawlLoop]
    split
    next hguard =>
      cases hsort : sortStable natFstLt st.frontier with
      | nil => simp only [hsort]; exact ⟨h1, h2⟩
      | cons head rest =>
        simp only [hsort]
        obtain ⟨p, current⟩ := head
        split
        next hin => exact ih _ h1 h2
        next hnin =>
          have hu : current ∉ st.visited := by simpa using hnin
          have hv := scrape_page_visited world domain bp
            { st with frontier := rest } current hu
          apply ih
          · show (scrape_page world domain bp { st with frontier := rest } current).1.visited.Nodup
            rw [hv.1]
            simp only [List.nodup_append, List.nodup_singleton, true_and]
            exact ⟨h1, by simpa [List.disjoint_singleton] using hu⟩
          · show (scrape_page world domain bp
                { st with frontier := rest } current).1.visited.length ≤ maxp
            rw [hv.1]
            simp only [List.length_append, List.length_singleton]
            omega
    next hguard => exact ⟨h1, h2⟩

/-- C1 (amended): for every crawl, the fetch-attempt trace — the visited
list, to which a URL is appended at the instant it is popped, before its
fetch is attempted — contains no duplicate URL string, so no URL is
fetched more than once and a URL whose fetch failed is never retried.
(Comparison is on exact URL strings; every enqueued URL is already in
normalized form, so this coincides with the claim whenever the seed URL
is itself normalized.) -/
theorem claim_c1_no_url_fetched_twice (world : World) (url : String)
    (max_pages fuel : Nat) :
    (crawl_final_state world url max_pages fuel).visited.Nodup :=
  (crawlLoop_visited_invariant world (seed_domain url) (base_path_of url)
    max_pages fuel (initState url) (List.nodup_nil) (by simp [initState])).1

/-- The world of the normalization counterexample: the seed URL carries a
query string, and the seed page links to the same location; the enqueued
clean URL `https://e.com/docs` and the seed `https://e.com/docs?page=1`
are distinct strings with the same normalization, so both are fetched. -/
def cexAnchor : Anchor :=
  { href := "/docs", text := "Documentation", absUrl := "https://e.com/docs" }

def cexWorld : World := fun u =>
  if u = "https://e.com/docs?page=1" then
    some { navAnchors := [cexAnchor], allAnchors := [cexAnchor], markdown := "" }
  else if u = "https://e.com/docs" then
    some { navAnchors := [], allAnchors := [], markdown := "" }
  else none

/-- C1 (counterexample to the claim as stated): in the `cexWorld` crawl
two fetched URLs share one normalization, so the normalized fetch trace
has a duplicate. -/
theorem claim_c1_counterexample :
    ¬ ((crawl_final_state cexWorld "https://e.com/docs?page=1" 5 5).visited.map
        normalize_url).Nodup := by decide

/-- C3 (amended): `pages_scraped` is the length of the visited list (the
fetch-attempt trace), that trace has no duplicates — so `pages_scraped`
counts distinct attempted URL strings — and `pages_scraped ≤ max_pages`. -/
theorem claim_c3_pages_scraped (world : World) (url : String)
    (max_pages fuel : Nat) :
    (scrape_documentation world url max_pages fuel).pages_scraped
        = (crawl_final_state world url max_pages fuel).visited.length
    ∧ (scrape_documentation world url max_pages fuel).pages_scraped ≤ max_pages
    ∧ (crawl_final_state world url max_pages fuel).visited.Nodup := by
  have h := crawlLoop_visited_invariant world (seed_domain url) (base_path_of url)
    max_pages fuel (initState url) (List.nodup_nil) (by simp [initState])
  exact ⟨rfl, h.2, h.1⟩

/-- C3 (counterexample to the claim as stated): in the `cexWorld` crawl
`pages_scraped = 2`, but only one distinct normalized URL was fetched. -/
theorem claim_c3_counterexample :
    (scrape_documentation cexWorld "https://e.com/docs?page=1" 5 5).pages_scraped ≠
      ((crawl_final_state cexWorld "https://e.com/docs?page=1" 5 5).visited.map
          normalize_url).dedup.length := by decide

/-- C2 witness world: one page with two verb+path operations. -/
def demoWorld : World := fun u =>
  if u = "https://e.com/docs/start" then
    some { navAnchors := [], allAnchors := [],
           markdown := "GET /b2 endpoint two here\n\nGET /a2 endpoint one here" }
  else none

theorem claim_c2_dedup_and_sort_witness :
    ∃ o ∈ (scrape_documentation demoWorld "https://e.com/docs/start" 5 5).operations,
      opKey o = opKey ((crawl_final_state demoWorld "https://e.com/docs/start" 5 5
        ).all_operations.headD defaultOp) :=
  (claim_c2_dedup_and_sort demoWorld "https://e.com/docs/start" 5 5).2.2.2
    ((crawl_final_state demoWorld "https://e.com/docs/start" 5 5
      ).all_operations.headD defaultOp)
    (by decide)

/-- C4: a page whose fetch fails (`httpx.HTTPError`: timeout, transport
error, or non-success status) contributes zero operations, zero auth text,
zero raw markdown and zero new frontier entries — `scrape_page` only marks
it visited and returns no links — and the crawl loop proceeds to the next
frontier entry (the model is total, so nothing is raised). -/
theorem claim_c4_fetch_failure_skipped (world : World) (domain bp : String)
    (maxp fuel : Nat) (st : CrawlState) (p : Nat) (u : String)
    (rest : List (Nat × String))
    (hpop : sortStable natFstLt st.frontier = (p, u) :: rest)
    (hlen : st.visited.length < maxp)
    (hnv : u ∉ st.visited)
    (hfail : world u = none) :
    scrape_page world domain bp { st with frontier := rest } u
      = ({ st with frontier := rest, visited := st.visited ++ [u] }, [])
    ∧ crawlLoop world domain bp maxp (fuel + 1) st
      = crawlLoop world domain bp maxp fuel
          { st with frontier := rest, visited := st.visited ++ [u] } := by
  have hsp : scrape_page world domain bp { st with frontier := rest } u
      = ({ st with frontier := rest, visited := st.visited ++ [u] }, []) := by
    unfold scrape_page
    rw [if_neg (by simpa using hnv), hfail]
  refine ⟨hsp, ?_⟩
  have hne : st.frontier ≠ [] := by
    intro h
    rw [h] at hpop
    exact absurd hpop (by simp [sortStable])
  rw [crawlLoop, if_pos ⟨hne, hlen⟩]
  simp only [hpop]
  rw [if_neg (by simpa using hnv), hsp]
  simp

def failWorld : World := fun _ => none

theorem claim_c4_fetch_failure_skipped_witness :
    scrape_page failWorld "https://e.com" ""
        { visited := [], all_operations := [], markdown_parts := [],
          auth_content_parts := [], frontier := [] } "https://e.com/x"
      = ({ visited := ["https://e.com/x"], all_operations := [],
           markdown_parts := [], auth_content_parts := [], frontier := [] }, [])
    ∧ crawlLoop failWorld "https://e.com" "" 2 1
        { visited := [], all_operations := [], markdown_parts := [],
          auth_content_parts := [], frontier := [(0, "https://e.com/x")] }
      = crawlLoop failWorld "https://e.com" "" 2 0
          { visited := ["https://e.com/x"], all_operations := [],
            markdown_parts := [], auth_content_parts := [], frontier := [] } :=
  claim_c4_fetch_failure_skipped failWorld "https://e.com" "" 2 0
    { visited := [], all_operations := [], markdown_parts := [],
      auth_content_parts := [], frontier := [(0, "https://e.com/x")] }
    0 "https://e.com/x" [] (by decide) (by decide) (by decide) rfl

/-! ## Lemmas: `merge_operations` -/

/-- The table `mergeGo` builds over a run with pairwise-distinct keys. -/
def tblOf (i : Nat) : List Operation → List ((String × String) × Nat)
  | [] => []
  | op :: rest => (opKey op, i) :: tblOf (i + 1) rest

theorem tblLookup_append (k : String × String)
    (t1 t2 : List ((String × String) × Nat)) (h : tblLookup k t1 = none) :
    tblLookup k (t1 ++ t2) = tblLookup k t2 := by
  induction t1 with
  | nil => rfl
  | cons e rest ih =>
    obtain ⟨k', j⟩ := e
    by_cases hk : k' = k
    · rw [tblLookup, if_pos hk] at h
      exact absurd h (by simp)
    · rw [tblLookup, if_neg hk] at h
      rw [List.cons_append, tblLookup, if_neg hk]
      exact ih h

theorem mergeGo_distinct (l : List Operation) :
    ∀ (i : Nat) (heap : List Operation) (tbl : List ((String × String) × Nat)),
      l.Pairwise (fun a b => opKey a ≠ opKey b) →
      (∀ x ∈ l, tblLookup (opKey x) tbl = none) →
      mergeGo l i heap tbl = (heap, tbl ++ tblOf i l) := by
  induction l with
  | nil => intro i heap tbl _ _; simp [mergeGo, tblOf]
  | cons op rest ih =>
    intro i heap tbl hpw hnone
    rcases List.pairwise_cons.mp hpw with ⟨hop, hrest⟩
    rw [mergeGo]
    rw [hnone op (List.mem_cons_self _ _)]
    rw [ih (i + 1) heap (tbl ++ [(opKey op, i)]) hrest ?_]
    · rw [tblOf]
      simp [List.append_assoc]
    · intro x hx
      rw [tblLookup_append _ _ _ (hnone x (List.mem_cons_of_mem _ hx))]
      rw [tblLookup, if_neg (hop x hx), tblLookup]

theorem tblOf_map_getD (d : Operation) :
    ∀ (post pre : List Operation),
      (tblOf pre.length post).map (fun kj => (pre ++ post).getD kj.2 d) = post := by
  intro post
  induction post with
  | nil => intro pre; rfl
  | cons op rest ih =>
    intro pre
    rw [tblOf]
    simp only [List.map_cons]
    congr 1
    · rw [List.getD_append_right _ _ _ _ (le_refl pre.length)]
      simp
    · have h := ih (pre ++ [op])
      rw [List.length_append, List.length_singleton] at h
      rw [List.append_assoc, List.singleton_append] at h
      exact h

/-- The two aliased inputs of the C5 counterexample: same `(method, path)`
key, so the second merges into (and mutates) the first. -/
def mutOpA : Operation :=
  { method := "GET", path := "/a", summary := "", description := "d1",
    examples := [], parameters_text := "p", source_url := "" }

def mutOpB : Operation :=
  { method := "GET", path := "/a", summary := "", description := "longer-desc",
    examples := ["ex1"], parameters_text := "p2", source_url := "" }

/-- C5 (counterexample to the claim as stated): `merge_operations` is not
mutation-free — after the call the first input operation has absorbed the
second one's examples, description and parameters text, so the post-call
input state differs from the inputs. -/
theorem claim_c5_counterexample :
    (merge_operations [mutOpA, mutOpB]).1 ≠ [mutOpA, mutOpB] := by decide

/-- C5 (amended): `merge_operations` performs no I/O, and when every input
operation has a distinct `(method, path)` key it mutates nothing and
returns the input list unchanged; when keys repeat, the retained first
occurrence is mutated in place (examples extended, longer description
kept, novel parameters text appended) and later duplicates are dropped. -/
theorem claim_c5_merge_pure_on_distinct (ops : List Operation)
    (h : ops.Pairwise (fun a b => opKey a ≠ opKey b)) :
    merge_operations ops = (ops, ops) := by
  have h1 : mergeGo ops 0 ops [] = (ops, tblOf 0 ops) :=
    mergeGo_distinct ops 0 ops [] h (fun x _ => rfl)
  unfold merge_operations
  rw [h1]
  simp only
  congr 1
  have h2 := tblOf_map_getD defaultOp ops []
  simpa using h2

theorem claim_c5_merge_pure_on_distinct_witness :
    merge_operations [mutOpA, { mutOpB with path := "/b" }] =
      ([mutOpA, { mutOpB with path := "/b" }],
       [mutOpA, { mutOpB with path := "/b" }]) :=
  claim_c5_merge_pure_on_distinct _ (by decide)

/-! ## Lemmas: link classification -/

theorem get_link_priority_skip (bp href text : String)
    (h : has_skip_keyword href text = true) :
    get_link_priority bp href text = 999 := by
  rw [get_link_priority, if_pos h]

theorem navPass_sound (domain bp : String) (visited : List String)
    (anchors : List Anchor) :
    ∀ navAcc pr u, (pr, u) ∈ (navPass domain bp visited anchors navAcc).2 →
      ∃ a ∈ anchors, clean_url a.absUrl = u ∧
        has_skip_keyword a.href a.text = false := by
  induction anchors with
  | nil => intro navAcc pr u h; simp [navPass] at h
  | cons a rest ih =>
    intro navAcc pr u h
    rw [navPass] at h
    split at h
    · dsimp only at h
      split at h
      next hp =>
        rcases List.mem_cons.mp h with he | h
        · rcases Prod.mk.injEq .. ▸ he with ⟨hpr, hu⟩
          refine ⟨a, List.mem_cons_self _ _, hu.symm ▸ rfl, ?_⟩
          cases hskip : has_skip_keyword a.href a.text with
          | false => rfl
          | true =>
            rw [get_link_priority_skip bp a.href a.text hskip] at hp
            exact absurd (of_decide_eq_true hp) (by omega)
        · rcases ih _ pr u h with ⟨a', ha', hu, hs⟩
          exact ⟨a', List.mem_cons_of_mem _ ha', hu, hs⟩
      next hp =>
        rcases ih _ pr u h with ⟨a', ha', hu, hs⟩
        exact ⟨a', List.mem_cons_of_mem _ ha', hu, hs⟩
    · rcases ih _ pr u h with ⟨a', ha', hu, hs⟩
      exact ⟨a', List.mem_cons_of_mem _ ha', hu, hs⟩

theorem contentPass_sound (domain bp : String) (visited navLinks : List String)
    (anchors : List Anchor) :
    ∀ pr u, (pr, u) ∈ contentPass domain bp visited navLinks anchors →
      ∃ a ∈ anchors, clean_url a.absUrl = u ∧
        has_skip_keyword a.href a.text = false := by
  induction anchors with
  | nil => intro pr u h; simp [contentPass] at h
  | cons a rest ih =>
    intro pr u h
    rw [contentPass] at h
    split at h
    · split at h
      · dsimp only at h
        split at h
        next hp =>
          rcases List.mem_cons.mp h with he | h
          · rcases Prod.mk.injEq .. ▸ he with ⟨hpr, hu⟩
            refine ⟨a, List.mem_cons_self _ _, hu.symm ▸ rfl, ?_⟩
            cases hskip : has_skip_keyword a.href a.text with
            | false => rfl
            | true =>
              rw [get_link_priority_skip bp a.href a.text hskip] at hp
              exact absurd (of_decide_eq_true hp) (by omega)
          · rcases ih pr u h with ⟨a', ha', hu, hs⟩
            exact ⟨a', List.mem_cons_of_mem _ ha', hu, hs⟩
        next hp =>
          rcases ih pr u h with ⟨a', ha', hu, hs⟩
          exact ⟨a', List.mem_cons_of_mem _ ha', hu, hs⟩
      · rcases ih pr u h with ⟨a', ha', hu, hs⟩
        exact ⟨a', List.mem_cons_of_mem _ ha', hu, hs⟩
    · rcases ih pr u h with ⟨a', ha', hu, hs⟩
      exact ⟨a', List.mem_cons_of_mem _ ha', hu, hs⟩

/-- C6: a link whose href or anchor text contains a skip keyword (for
example `pricing`) is never added to the frontier: the skip check is the
first rule of `get_link_priority`, so such a link scores 999 regardless of
any endpoint keyword, seed-directory prefix or navigation keyword on the
same link, and both the structural-navigation loop and the page-body loop
of `extract_navigation_links` drop scores `≥ 999` — every emitted frontier
candidate traces back to a skip-free anchor. -/
theorem claim_c6_skip_links_never_enqueued :
    (∀ bp href text, has_skip_keyword href text = true →
        get_link_priority bp href text = 999)
    ∧ (∀ domain bp visited pg pr u,
        (pr, u) ∈ extract_navigation_links domain bp visited pg →
        ∃ a, (a ∈ pg.navAnchors ∨ a ∈ pg.allAnchors) ∧
          clean_url a.absUrl = u ∧ has_skip_keyword a.href a.text = false) := by
  refine ⟨get_link_priority_skip, ?_⟩
  intro domain bp visited pg pr u h
  rcases List.mem_append.mp h with h | h
  · rcases navPass_sound domain bp visited pg.navAnchors [] pr u h with ⟨a, ha, hu, hs⟩
    exact ⟨a, Or.inl ha, hu, hs⟩
  · rcases contentPass_sound domain bp visited _ pg.allAnchors pr u h with ⟨a, ha, hu, hs⟩
    exact ⟨a, Or.inr ha, hu, hs⟩

def demoAnchor : Anchor :=
  { href := "/guide-x", text := "Guide", absUrl := "https://e.com/guide-x" }

def demoPage : FetchedPage :=
  { navAnchors := [], allAnchors := [demoAnchor], markdown := "" }

theorem claim_c6_skip_links_never_enqueued_witness :
    get_link_priority "" "/pricing" "Pricing page" = 999
    ∧ ∃ a, (a ∈ demoPage.navAnchors ∨ a ∈ demoPage.allAnchors) ∧
        clean_url a.absUrl = "https://e.com/guide-x" ∧
        has_skip_keyword a.href a.text = false :=
  ⟨claim_c6_skip_links_never_enqueued.1 "" "/pricing" "Pricing page" (by decide),
   claim_c6_skip_links_never_enqueued.2 "https://e.com" "" [] demoPage
     39 "https://e.com/guide-x" (by decide)⟩

/-! ## Lemmas: the verb+path scan -/

theorem tryVerb_mem :
    ∀ (vs : List String) (cs : List Char) (v : String) (rest : List Char),
      tryVerb vs cs = some (v, rest) → v ∈ vs := by
  intro vs
  induction vs with
  | nil => intro cs v rest h; simp [tryVerb] at h
  | cons w ws ih =>
    intro cs v rest h
    rw [tryVerb] at h
    split at h
    · cases h
      exact List.mem_cons_self _ _
    · exact List.mem_cons_of_mem _ (ih cs v rest h)

theorem tryHttpAt_shape (pathChar : Char → Bool) (pw : Bool) (cs : List Char)
    (v : String) (path : List Char) (len : Nat)
    (h : tryHttpAt pathChar pw cs = some (v, path, len)) :
    v ∈ HTTP_VERBS ∧ ∃ body, body ≠ [] ∧ path = '/' :: body := by
  rw [tryHttpAt] at h
  split at h
  · exact absurd h (by simp)
  · split at h
    · exact absurd h (by simp)
    next v' rest1 heq =>
      try dsimp only at h
      split at h
      · exact absurd h (by simp)
      · split at h
        next rest3 heq3 =>
          try dsimp only at h
          split at h
          next hne => exact absurd h (by simp)
          next hne =>
            cases h
            exact ⟨tryVerb_mem _ _ _ _ heq, _, by simpa using hne, rfl⟩
        next => exact absurd h (by simp)

theorem httpFind_shape (pathChar : Char → Bool) :
    ∀ (fuel : Nat) (pw : Bool) (cs : List Char) (pos : Nat) (m : VerbMatch),
      m ∈ httpFind pathChar fuel pw cs pos →
      m.method ∈ HTTP_VERBS ∧ ∃ body, body ≠ [] ∧ m.rawPath = '/' :: body := by
  intro fuel
  induction fuel with
  | zero => intro pw cs pos m h; simp [httpFind] at h
  | succ fuel ih =>
    intro pw cs pos m h
    rw [httpFind.eq_def] at h
    dsimp only at h
    split at h
    · simp at h
    · split at h
      next v path len heq =>
        rcases List.mem_cons.mp h with he | h
        · subst he
          exact tryHttpAt_shape pathChar _ _ _ _ _ heq
        · exact ih _ _ _ m h
      next => exact ih _ _ _ m h

theorem head_dropWhile_not (p : Char → Bool) :
    ∀ (l : List Char) (c : Char), (l.dropWhile p).head? = some c → p c = false := by
  intro l
  induction l with
  | nil => intro c h; simp [List.dropWhile] at h
  | cons x xs ih =>
    intro c h
    rw [List.dropWhile_cons] at h
    split at h
    · exact ih c h
    next hp =>
      rw [List.head?_cons] at h
      cases h
      exact Bool.of_not_eq_true hp

theorem pyRstrip_getLast (cut l : List Char) (c : Char)
    (h : (pyRstrip cut l).getLast? = some c) : cut.contains c = false := by
  unfold pyRstrip at h
  rw [List.getLast?_reverse] at h
  exact head_dropWhile_not _ _ c h

theorem verb_pass_go_shape (content : List Char) (url : String) :
    ∀ (ms : List VerbMatch) (seen : List (String × String)) (op : Operation),
      op ∈ (verb_pass_go content url ms seen).1 →
      ∃ m ∈ ms, op.method = m.method
        ∧ op.path.data = pyRstrip ".,;:)".data m.rawPath
        ∧ startsSlash op.path.data = true
        ∧ 2 ≤ op.path.data.length
        ∧ op.examples = [] := by
  intro ms
  induction ms with
  | nil => intro seen op h; simp [verb_pass_go] at h
  | cons m rest ih =>
    intro seen op h
    rw [verb_pass_go] at h
    dsimp only at h
    split at h
    next hcond =>
      rcases Bool.and_eq_true .. |>.mp hcond with ⟨hss, hlen⟩
      split at h
      · rcases ih _ op h with ⟨m', hm', hrest⟩
        exact ⟨m', List.mem_cons_of_mem _ hm', hrest⟩
      · rcases List.mem_cons.mp h with he | h
        · subst he
          exact ⟨m, List.mem_cons_self _ _, rfl, rfl, hss, of_decide_eq_true hlen, rfl⟩
        · rcases ih _ op h with ⟨m', hm', hrest⟩
          exact ⟨m', List.mem_cons_of_mem _ hm', hrest⟩
    next hcond =>
      rcases ih _ op h with ⟨m', hm', hrest⟩
      exact ⟨m', List.mem_cons_of_mem _ hm', hrest⟩

/-- C7 (amended): every operation produced by the verb+path scan carries
an HTTP verb from the pattern's alternation, a path starting with `/` of
trimmed length at least 2 whose last character is none of the trimmed
punctuation `.,;:)`, and no examples; and on
`"GET /v1/users returns a list"` the extractor returns exactly one
operation, `GET /v1/users`.  (The path token is a maximal run of
characters excluding whitespace, quotes, the *closing* parenthesis, and
angle brackets — the opening parenthesis is allowed, unlike the claim's
wording; see the counterexample against `spec_verb_pass`.) -/
theorem claim_c7_verb_path_scan :
    (∀ (content : List Char) (url : String) (op : Operation),
        op ∈ (verb_pass content url).1 →
        op.method ∈ HTTP_VERBS
        ∧ startsSlash op.path.data = true
        ∧ 2 ≤ op.path.data.length
        ∧ (∀ c, op.path.data.getLast? = some c → ".,;:)".data.contains c = false)
        ∧ op.examples = [])
    ∧ (∀ url, extract_operations_from_content "GET /v1/users returns a list".data url
        = [{ method := "GET", path := "/v1/users", summary := "", description := "",
             examples := [], parameters_text := "GET /v1/users returns a list",
             source_url := url }]) := by
  constructor
  · intro content url op h
    rcases verb_pass_go_shape content url _ [] op h with
      ⟨m, hm, hmeth, hpath, hss, hlen, hex⟩
    have hshape := httpFind_shape src_path_char _ _ _ _ m hm
    refine ⟨hmeth.symm ▸ hshape.1, hss, hlen, ?_, hex⟩
    intro c hc
    rw [hpath] at hc
    exact pyRstrip_getLast _ _ c hc
  · intro url
    rfl

/-- C7 (counterexample to the claim as stated): on `"GET /a(b x"` the
implemented scan yields path `/a(b` (the opening parenthesis is a legal
path character), while the spec's path-token class would stop at the
parenthesis and yield `/a`. -/
theorem claim_c7_counterexample :
    (verb_pass "GET /a(b x".data "u").1 ≠ (spec_verb_pass "GET /a(b x".data "u").1 := by
  decide

theorem claim_c7_verb_path_scan_witness :
    ∃ op, op ∈ (verb_pass "GET /v1/users returns a list".data "u").1 ∧
      op.method ∈ HTTP_VERBS ∧ startsSlash op.path.data = true :=
  ⟨(verb_pass "GET /v1/users returns a list".data "u").1.headD defaultOp,
   by decide,
   (claim_c7_verb_path_scan.1 "GET /v1/users returns a list".data "u"
     ((verb_pass "GET /v1/users returns a list".data "u").1.headD defaultOp)
     (by decide)).1,
   (claim_c7_verb_path_scan.1 "GET /v1/users returns a list".data "u"
     ((verb_pass "GET /v1/users returns a list".data "u").1.headD defaultOp)
     (by decide)).2.1⟩

/-! ## Lemmas: the shared page-local seen set -/

theorem verb_pass_go_seen_mono (content : List Char) (url : String) :
    ∀ (ms : List VerbMatch) (seen : List (String × String)) (k : String × String),
      k ∈ seen → k ∈ (verb_pass_go content url ms seen).2 := by
  intro ms
  induction ms with
  | nil => intro seen k hk; simpa [verb_pass_go] using hk
  | cons m rest ih =>
    intro seen k hk
    rw [verb_pass_go]
    dsimp only
    split
    · split
      · exact ih seen k hk
      · exact ih _ k (List.mem_cons_of_mem _ hk)
    · exact ih seen k hk

theorem verb_pass_go_key_in_seen (content : List Char) (url : String) :
    ∀ (ms : List VerbMatch) (seen : List (String × String)) (op : Operation),
      op ∈ (verb_pass_go content url ms seen).1 →
      (op.method, op.path) ∈ (verb_pass_go content url ms seen).2 := by
  intro ms
  induction ms with
  | nil => intro seen op h; simp [verb_pass_go] at h
  | cons m rest ih =>
    intro seen op h
    rw [verb_pass_go] at h ⊢
    dsimp only at h ⊢
    split at h
    next hcond =>
      rw [if_pos hcond]
      split at h
      next hseen =>
        rw [if_pos hseen]
        exact ih seen op h
      next hseen =>
        rw [if_neg hseen]
        rcases List.mem_cons.mp h with he | h
        · subst he
          exact verb_pass_go_seen_mono content url rest _ _ (List.mem_cons_self _ _)
        · exact ih _ op h
    next hcond =>
      rw [if_neg hcond]
      exact ih seen op h

theorem curl_pass_not_seen (content : List Char) (url : String) :
    ∀ (ms : List CurlMatch) (seen : List (String × String)) (op : Operation),
      op ∈ curl_pass content url ms seen → (op.method, op.path) ∉ seen := by
  intro ms
  induction ms with
  | nil => intro seen op h; simp [curl_pass] at h
  | cons m rest ih =>
    intro seen op h
    rw [curl_pass] at h
    dsimp only at h
    split at h
    · exact ih seen op h
    · split at h
      next hseen => exact ih seen op h
      next hseen =>
        split at h
        · intro hmem
          exact ih _ op h (List.mem_cons_of_mem _ hmem)
        · rcases List.mem_cons.mp h with he | h
          · subst he
            simpa using hseen
          · intro hmem
            exact ih _ op h (List.mem_cons_of_mem _ hmem)

/-- C10: within one page's extraction, when the verb+path scan and the
cURL scan both produce the same `(method, path)` key, only the verb+path
operation (description and parameters text, empty examples — see
`claim_c7_verb_path_scan`) is kept: the cURL scan runs second against the
shared page-local seen set, so no cURL operation shares a key with any
verb+path operation; the concrete page containing both `POST /orders` and
`curl -X POST https://api.x.com/orders` yields exactly the verb+path
operation, the example command being discarded. -/
theorem claim_c10_curl_duplicate_discarded :
    (∀ (content : List Char) (url : String) (vop cop : Operation),
        vop ∈ (verb_pass content url).1 →
        cop ∈ curl_pass content url (curlFind (content.length + 1) content 0)
          (verb_pass content url).2 →
        (vop.method, vop.path) ≠ (cop.method, cop.path))
    ∧ (∀ url, extract_operations_from_content
        "POST /orders Creates an order resource.\n\ncurl -X POST https://api.x.com/orders".data
        url
        = [{ method := "POST", path := "/orders", summary := "", description := "",
             examples := [],
             parameters_text :=
               "POST /orders Creates an order resource.\n\ncurl -X POST https://api.x.com/orders",
             source_url := url }]) := by
  constructor
  · intro content url vop cop hv hc he
    have h1 : (vop.method, vop.path) ∈ (verb_pass content url).2 :=
      verb_pass_go_key_in_seen content url _ [] vop hv
    have h2 : (cop.method, cop.path) ∉ (verb_pass content url).2 :=
      curl_pass_not_seen content url _ _ cop hc
    exact h2 (he ▸ h1)
  · intro url
    rfl

def c10wContent : List Char := "GET /a1 something here\n\ncurl -X POST https://x.com/b1".data

def c10vop : Operation := (verb_pass c10wContent "u").1.headD defaultOp

def c10cop : Operation :=
  (curl_pass c10wContent "u" (curlFind (c10wContent.length + 1) c10wContent 0)
    (verb_pass c10wContent "u").2).headD defaultOp

theorem claim_c10_curl_duplicate_discarded_witness :
    (c10vop.method, c10vop.path) ≠ (c10cop.method, c10cop.path) :=
  claim_c10_curl_duplicate_discarded.1 c10wContent "u" c10vop c10cop
    (by decide) (by decide)

/-! ## Lemmas: auth heading levels -/

theorem takeWhile_not_ws_eq_hashes (l : List Char)
    (h : isWs ((l.dropWhile (· == '#')).headD ' ') = true) :
    l.takeWhile (fun c => !isWs c) = l.takeWhile (· == '#') := by
  induction l with
  | nil => rfl
  | cons c rest ih =>
    by_cases hc : c = '#'
    · subst hc
      rw [List.dropWhile_cons, if_pos (by decide)] at h
      rw [List.takeWhile_cons, List.takeWhile_cons,
        if_pos (by decide), if_pos (by decide), ih h]
    · rw [List.dropWhile_cons, if_neg (by simpa using hc), List.headD_cons] at h
      rw [List.takeWhile_cons, List.takeWhile_cons,
        if_neg (by simp [h]), if_neg (by simpa using hc)]

theorem pyFirstTokenLen_eq_hashCount (l : List Char) (hc0 : l.headD ' ' = '#')
    (h : isWs ((l.dropWhile (· == '#')).headD ' ') = true) :
    pyFirstTokenLen l = leadingHashCount l := by
  unfold pyFirstTokenLen leadingHashCount
  cases l with
  | nil => rfl
  | cons c rest =>
    rw [List.headD_cons] at hc0
    subst hc0
    rw [List.dropWhile_cons, if_neg (by decide)]
    rw [takeWhile_not_ws_eq_hashes _ h]

theorem tryAuthAt_shape (cs : List Char) (len : Nat) (h : tryAuthAt cs = some len) :
    cs.takeWhile (· == '#') ≠ [] ∧ 1 ≤ len := by
  rw [tryAuthAt] at h
  split at h
  next hne => exact absurd h (by simp)
  next hne =>
    dsimp only at h
    split at h
    · exact absurd h (by simp)
    · cases h
      refine ⟨by simpa using hne, ?_⟩
      have : cs.takeWhile (· == '#') ≠ [] := by simpa using hne
      have hlen : 1 ≤ (cs.takeWhile (· == '#')).length :=
        Nat.succ_le_of_lt (List.length_pos.mpr this)
      omega

theorem authFind_group0_head :
    ∀ (fuel : Nat) (atLS : Bool) (cs : List Char) (pos : Nat) (m : AuthMatch),
      m ∈ authFind fuel atLS cs pos → m.group0.headD ' ' = '#' := by
  intro fuel
  induction fuel with
  | zero => intro atLS cs pos m h; simp [authFind] at h
  | succ fuel ih =>
    intro atLS cs pos m h
    cases cs with
    | nil => rw [authFind.eq_def] at h; simp at h
    | cons c rest =>
      rw [authFind.eq_def] at h
      dsimp only at h
      split at h
      next len heq =>
        rcases List.mem_cons.mp h with he | h
        · subst he
          have hta : tryAuthAt (c :: rest) = some len := by
            split at heq
            · exact heq
            · exact absurd heq (by simp)
          rcases tryAuthAt_shape (c :: rest) len hta with ⟨hne, hlen⟩
          have hc : c = '#' := by
            rw [List.takeWhile_cons] at hne
            by_cases hcc : (c == '#') = true
            · simpa using hcc
            · rw [if_neg hcc] at hne
              exact absurd rfl hne
          subst hc
          cases len with
          | zero => omega
          | succ n => simp [List.take_succ_cons]
        · exact ih _ _ _ m h
      next => exact ih _ _ _ m h

theorem extract_auth_sections_agrees (md : List Char)
    (h : ∀ m ∈ authFind (md.length + 1) true md 0,
        isWs ((m.group0.dropWhile (· == '#')).headD ' ') = true) :
    extract_auth_sections md = spec_extract_auth_sections md := by
  unfold extract_auth_sections spec_extract_auth_sections extract_auth_sections_with
  dsimp only
  congr 1
  apply List.filterMap_congr
  intro m hm
  rw [pyFirstTokenLen_eq_hashCount m.group0
    (authFind_group0_head _ _ _ _ m hm) (h m hm)]

/-- C8 (amended): on the claim's concrete markdown the extractor returns
exactly the Authentication section (heading plus body, `Rate Limits`
excluded); and the sectioning rule agrees with "nesting level = count of
leading heading markers" for every markdown in which each matched auth
heading has whitespace right after its `#` run — the implemented level is
the length of the first whitespace-delimited token of the matched text
(`len(match.group(0).split()[0])`), which differs from the marker count
only when the keyword abuts the markers. -/
theorem claim_c8_auth_sections :
    extract_auth_sections "## Authentication\nUse an API key.\n## Rate Limits".data
      = "## Authentication\nUse an API key."
    ∧ ∀ md, (∀ m ∈ authFind (md.length + 1) true md 0,
        isWs ((m.group0.dropWhile (· == '#')).headD ' ') = true) →
      extract_auth_sections md = spec_extract_auth_sections md := by
  exact ⟨by decide, extract_auth_sections_agrees⟩

/-- C8 (counterexample to the claim as stated): on `"##authentication"`
(no space after the markers) the code computes level 16 — the length of
`"##authentication"` — so the following `### B` heading ends the section,
while the spec's marker-count rule (level 2) would run to document end. -/
theorem claim_c8_counterexample :
    extract_auth_sections "##authentication\nA\n### B\nC".data ≠
      spec_extract_auth_sections "##authentication\nA\n### B\nC".data := by decide

theorem claim_c8_auth_sections_witness :
    extract_auth_sections "## Authentication\nUse an API key.\n## Rate Limits".data
      = spec_extract_auth_sections
          "## Authentication\nUse an API key.\n## Rate Limits".data :=
  claim_c8_auth_sections.2
    "## Authentication\nUse an API key.\n## Rate Limits".data (by decide)

/-- The claim's corpus: the literal `https://api.example.com/v2` three
times and no other base-URL-shaped pattern. -/
def c9corpus : List String :=
  ["Base: https://api.example.com/v2 here",
   "see https://api.example.com/v2 and https://api.example.com/v2."]

/-- A corpus where only the second and third pattern families match: the
`/api` path form must win over the more frequent bare `/vN` form. -/
def c9order : List String :=
  ["See https://x.com/v1 and https://x.com/api also https://x.com/v1 end."]

/-- C9 (amended): the three pattern families are tried in fixed order and
the first with any match wins (the `/api` form beats a more frequent
`/vN` form); within a family the most frequent literal wins, ties broken
by first occurrence; and with no match anywhere the detector synthesizes
`https://api.<netloc>` with *every* occurrence of the substring `www.`
removed from the netloc (not only a leading one — see the
counterexample). -/
theorem claim_c9_base_url_detector :
    detect_api_base_url c9corpus "https://docs.e.com" = "https://api.example.com/v2"
    ∧ detect_api_base_url c9order "https://docs.e.com" = "https://x.com/api"
    ∧ ∀ domain, detect_api_base_url [] domain
        = "https://api." ++ removeWww (netloc_of domain) :=
  ⟨by decide, by decide, fun _ => rfl⟩

/-- C9 (counterexample to the claim as stated): for the seed domain
`https://docs.www.example.com` the code removes the inner `www.` and
returns `https://api.docs.example.com`, while removing only a leading
`www.` would return `https://api.docs.www.example.com`. -/
theorem claim_c9_counterexample :
    detect_api_base_url [] "https://docs.www.example.com" ≠
      spec_fallback_base "https://docs.www.example.com" := by decide
